import Mathlib

/-!
Verification of the ownership-scoped recipe/tag resource API
(app/recipe/views.py, app/recipe/serializers.py) against its
natural-language specification.

The persistence layer is a shallow embedding: the database is a record of
lists of rows, the ORM primitives (`filter`, `order_by`, `get_or_create`,
`create`, many-to-many `add`) are pure functions on it, and each HTTP
operation is a pure function from the authenticated user, the database and
the payload to a result.
-/

namespace RecipeApp

/-- Modelled from the spec: `core/models.py` is not in the given sources.
A Tag row: server-assigned id, owning user (foreign key, modelled as the
user's numeric id) and a free-text name. -/
structure Tag where
  id : Nat
  user : Nat
  name : String
deriving DecidableEq, Repr

/-- Modelled from the spec: `core/models.py` is not in the given sources.
A Recipe row: server-assigned id, owning user, title, time_minutes
(non-negative integer), price (decimal with fixed scale, modelled as an
integer number of smallest units), optional link and description (modelled
as strings, absent = ""), and a many-to-many association to Tag rows,
modelled as the list of associated tag ids. -/
structure Recipe where
  id : Nat
  user : Nat
  title : String
  time_minutes : Nat
  price : Int
  link : String
  description : String
  tags : List Nat
deriving DecidableEq, Repr

/-- The persistence collaborator's state: all rows plus the id sequences. -/
structure DB where
  recipes : List Recipe
  tags : List Tag
  nextRecipeId : Nat
  nextTagId : Nat
deriving DecidableEq, Repr

/-- A JSON-ish field value appearing in request payloads and rendered
responses. `vTagNames` is a payload list of tag objects (each `{name}`);
`vTagsOut` is a rendered list of tag objects (each `{id, name}`);
`vIds` is a raw list of associated tag ids (used for frame statements). -/
inductive Val where
  | vStr : String → Val
  | vNat : Nat → Val
  | vInt : Int → Val
  | vTagNames : List String → Val
  | vTagsOut : List (Nat × String) → Val
  | vIds : List Nat → Val
deriving DecidableEq, Repr

/-- Error taxonomy of the API (spec section 7). `nestedWriteUnsupported`
models the framework's refusal of writable nested fields in update. -/
inductive Err where
  | unauthorized : Err
  | notFound : Err
  | validationError : Err
  | nestedWriteUnsupported : Err
deriving DecidableEq, Repr

/-! ### Serializer field lists (serializers.py) -/

/-- `RecipeSerializer.Meta.fields`. -/
def recipeFields : List String :=
  ["id", "title", "time_minutes", "price", "link", "tags", "description"]

/-- `RecipeDetailSerializer.Meta.fields = RecipeSerializer.Meta.fields + ["description"]`. -/
def recipeDetailFields : List String :=
  recipeFields ++ ["description"]

/-- Writable recipe fields: `Meta.fields` minus `read_only_fields = ["id"]`. -/
def writableRecipeFields : List String :=
  ["title", "time_minutes", "price", "link", "tags", "description"]

/-- `TagSerializer.Meta.fields`. -/
def tagFields : List String := ["id", "name"]

/-- Writable tag fields: `["id", "name"]` minus `read_only_fields = ["id"]`. -/
def writableTagFields : List String := ["name"]

/-! ### Validation (framework ModelSerializer semantics) -/

/-- Declared type of each writable recipe field, as a payload check. -/
def recipeFieldTypeOk (f : String) (v : Val) : Bool :=
  match f, v with
  | "title", .vStr _ => true
  | "time_minutes", .vNat _ => true
  | "price", .vInt _ => true
  | "link", .vStr _ => true
  | "description", .vStr _ => true
  | "tags", .vTagNames _ => true
  | _, _ => false

/-- Fields the model requires on create / full update
(title, time_minutes, price; link, description and tags are optional). -/
def requiredRecipeFields : List String := ["title", "time_minutes", "price"]

/-- ModelSerializer input validation: unknown and read-only keys are
silently dropped, kept keys must be well-typed, and on a non-partial
request every required field must be present. -/
def validateRecipePayload (raw : List (String × Val)) (isPartial : Bool) :
    Option (List (String × Val)) :=
  let v := raw.filter (fun p => writableRecipeFields.contains p.1)
  if v.all (fun p => recipeFieldTypeOk p.1 p.2) then
    if isPartial then some v
    else if requiredRecipeFields.all (fun f => (v.map Prod.fst).contains f) then some v
    else none
  else none

/-- Tag payload validation: only `name` is writable; it must be a string;
required on a non-partial update. -/
def validateTagPayload (raw : List (String × Val)) (isPartial : Bool) :
    Option (List (String × Val)) :=
  let v := raw.filter (fun p => writableTagFields.contains p.1)
  if v.all (fun p => match p.2 with | .vStr _ => true | _ => false) then
    if isPartial then some v
    else if (v.map Prod.fst).contains "name" then some v
    else none
  else none

/-! ### Applying validated scalar fields to an instance -/

/-- `setattr(instance, attr, value)` for each writable scalar recipe field.
The owner field is not a serializer field, so no branch touches it. -/
def setField (r : Recipe) (f : String) (v : Val) : Recipe :=
  match f, v with
  | "title", .vStr s => { r with title := s }
  | "time_minutes", .vNat n => { r with time_minutes := n }
  | "price", .vInt n => { r with price := n }
  | "link", .vStr s => { r with link := s }
  | "description", .vStr s => { r with description := s }
  | _, _ => r

/-- Apply a validated field list to an instance, in payload order. -/
def applyFields (r : Recipe) (l : List (String × Val)) : Recipe :=
  l.foldl (fun a p => setField a p.1 p.2) r

/-- Projection of a recipe field by serializer field name, for frame
statements ("user" is the owner; unknown names yield a dummy). -/
def fieldOf (r : Recipe) (f : String) : Val :=
  match f with
  | "id" => .vNat r.id
  | "user" => .vNat r.user
  | "title" => .vStr r.title
  | "time_minutes" => .vNat r.time_minutes
  | "price" => .vInt r.price
  | "link" => .vStr r.link
  | "description" => .vStr r.description
  | "tags" => .vIds r.tags
  | _ => .vStr ""

/-! ### ORM primitives and viewset querysets -/

/-- Many-to-many `add`: associates a tag id unless already associated. -/
def m2mAdd (l : List Nat) (i : Nat) : List Nat :=
  if l.contains i then l else l ++ [i]

/-- `RecipeViewSet.get_queryset`:
`self.queryset.filter(user=self.request.user).order_by("-id")`. -/
def recipeGetQueryset (db : DB) (u : Nat) : List Recipe :=
  List.insertionSort (fun a b => b.id ≤ a.id)
    (db.recipes.filter (fun r => r.user == u))

/-- `TagViewSet.get_queryset`:
`self.queryset.filter(user=self.request.user).order_by("-name")`. -/
def tagGetQueryset (db : DB) (u : Nat) : List Tag :=
  List.insertionSort (fun a b => b.name ≤ a.name)
    (db.tags.filter (fun t => t.user == u))

/-- `get_object`: pk lookup inside the owner-filtered queryset
(`get_object_or_404(self.get_queryset(), pk=i)`). -/
def getOwnedRecipe (db : DB) (u : Nat) (i : Nat) : Option Recipe :=
  (recipeGetQueryset db u).find? (fun r => r.id == i)

/-- `get_object` for tags, from the owner-filtered tag queryset. -/
def getOwnedTag (db : DB) (u : Nat) (i : Nat) : Option Tag :=
  (tagGetQueryset db u).find? (fun t => t.id == i)

/-! ### Rendering -/

/-- Value of one serializer output field of a recipe. Tag ids are expanded
to nested `{id, name}` objects via the tag table. -/
def outField (db : DB) (r : Recipe) (f : String) : Val :=
  match f with
  | "id" => .vNat r.id
  | "title" => .vStr r.title
  | "time_minutes" => .vNat r.time_minutes
  | "price" => .vInt r.price
  | "link" => .vStr r.link
  | "description" => .vStr r.description
  | "tags" => .vTagsOut (r.tags.map (fun i =>
      match db.tags.find? (fun t => t.id == i) with
      | some t => (t.id, t.name)
      | none => (i, "")))
  | _ => .vStr ""

/-- Render a recipe through a serializer field list. The framework builds
its field dictionary keyed by name, so a duplicated name in `Meta.fields`
collapses to one output entry (first occurrence wins the position). -/
def renderRecipe (fields : List String) (db : DB) (r : Recipe) :
    List (String × Val) :=
  fields.eraseDups.map (fun f => (f, outField db r f))

/-- Render a tag through `TagSerializer` (`["id", "name"]`). -/
def renderTag (t : Tag) : List (String × Val) :=
  [("id", .vNat t.id), ("name", .vStr t.name)]

/-- `RecipeViewSet.get_serializer_class`: the detail serializer for the
`list` action, the base serializer otherwise — expressed by the field list
the chosen serializer renders. -/
def recipeSerializerFieldsFor (action : String) : List String :=
  if action == "list" then recipeDetailFields else recipeFields

/-! ### RecipeSerializer.create (serializers.py) -/

/-- The `tags` entry of a validated payload
(`validated_data.pop("tags", [])`). -/
def tagNamesOfValidated (validated : List (String × Val)) : List String :=
  match validated.lookup "tags" with
  | some (.vTagNames ns) => ns
  | _ => []

/-- The per-tag loop of `RecipeSerializer.create`: for each payload tag,
`Tag.objects.get_or_create(user=auth_user, name=...)` followed by
`recipe.tags.add(tag_obj)`. Returns the association list, the updated tag
table and the updated id sequence. -/
def tagLoop (u : Nat) : List String → List Tag → Nat → List Nat →
    (List Nat × List Tag × Nat)
  | [], tags, next, acc => (acc, tags, next)
  | n :: rest, tags, next, acc =>
    match tags.find? (fun t => t.user == u && t.name == n) with
    | some t => tagLoop u rest tags next (m2mAdd acc t.id)
    | none => tagLoop u rest (tags ++ [⟨next, u, n⟩]) (next + 1) (m2mAdd acc next)

/-- `RecipeSerializer.create`, with the owner passed in by
`RecipeViewSet.perform_create` (`serializer.save(user=self.request.user)`):
pop the tags, create the Recipe row owned by the authenticated user, then
get-or-create and associate each payload tag under the same owner. -/
def recipeSerializerCreate (u : Nat) (db : DB)
    (validated : List (String × Val)) : Recipe × DB :=
  let names := tagNamesOfValidated validated
  let scalar := validated.filter (fun p => p.1 ≠ "tags")
  let base : Recipe :=
    { id := db.nextRecipeId, user := u, title := "", time_minutes := 0,
      price := 0, link := "", description := "", tags := [] }
  let r0 := applyFields base scalar
  let res := tagLoop u names db.tags db.nextTagId []
  let r := { r0 with tags := res.1 }
  (r, { recipes := db.recipes ++ [r], tags := res.2.1,
        nextRecipeId := db.nextRecipeId + 1, nextTagId := res.2.2 })

/-! ### Operations (authenticated handlers) -/

/-- `list` for recipes: owner-filtered, id-descending, rendered with the
serializer `get_serializer_class` picks for the `list` action. -/
def recipeListOp (u : Nat) (db : DB) : List (List (String × Val)) :=
  (recipeGetQueryset db u).map
    (renderRecipe (recipeSerializerFieldsFor "list") db)

/-- `retrieve` for recipes: owner-scoped pk lookup, rendered with the
serializer picked for the `retrieve` action; NotFound when absent. -/
def recipeRetrieveOp (u : Nat) (db : DB) (i : Nat) :
    Except Err (List (String × Val)) :=
  match getOwnedRecipe db u i with
  | none => .error .notFound
  | some r => .ok (renderRecipe (recipeSerializerFieldsFor "retrieve") db r)

/-- `create` for recipes: validate, then `RecipeSerializer.create` with the
authenticated user as owner. Returns the created row and the new state. -/
def recipeCreateOp (u : Nat) (db : DB) (raw : List (String × Val)) :
    Except Err (Recipe × DB) :=
  match validateRecipePayload raw false with
  | none => .error .validationError
  | some validated => .ok (recipeSerializerCreate u db validated)

/-- `update` / `partial_update` for recipes: owner-scoped pk lookup, then
validation, then field application. A `tags` entry in the validated data
hits the framework's refusal of writable nested fields on update. -/
def recipeUpdateOp (u : Nat) (db : DB) (i : Nat) (raw : List (String × Val))
    (isPartial : Bool) : Except Err (Recipe × DB) :=
  match getOwnedRecipe db u i with
  | none => .error .notFound
  | some r =>
    match validateRecipePayload raw isPartial with
    | none => .error .validationError
    | some validated =>
      if (validated.map Prod.fst).contains "tags" then
        .error .nestedWriteUnsupported
      else
        let r' := applyFields r validated
        .ok (r', { db with
          recipes := db.recipes.map (fun x => if x.id == r.id then r' else x) })

/-- `destroy` for recipes: owner-scoped pk lookup, then row deletion. -/
def recipeDestroyOp (u : Nat) (db : DB) (i : Nat) : Except Err DB :=
  match getOwnedRecipe db u i with
  | none => .error .notFound
  | some r => .ok { db with recipes := db.recipes.filter (fun x => x.id ≠ r.id) }

/-- `list` for tags: owner-filtered, name-descending, rendered with
`TagSerializer`. -/
def tagListOp (u : Nat) (db : DB) : List (List (String × Val)) :=
  (tagGetQueryset db u).map renderTag

/-- `update` / `partial_update` for tags (name only). -/
def tagUpdateOp (u : Nat) (db : DB) (i : Nat) (raw : List (String × Val))
    (isPartial : Bool) : Except Err (Tag × DB) :=
  match getOwnedTag db u i with
  | none => .error .notFound
  | some t =>
    match validateTagPayload raw isPartial with
    | none => .error .validationError
    | some validated =>
      let t' := validated.foldl
        (fun a p => match p.2 with | .vStr s => { a with name := s } | _ => a) t
      .ok (t', { db with
        tags := db.tags.map (fun x => if x.id == t.id then t' else x) })

/-- `destroy` for tags. -/
def tagDestroyOp (u : Nat) (db : DB) (i : Nat) : Except Err DB :=
  match getOwnedTag db u i with
  | none => .error .notFound
  | some t => .ok { db with tags := db.tags.filter (fun x => x.id ≠ t.id) }

/-! ### Authentication gate and endpoints -/

/-- `TokenAuthentication` + `IsAuthenticated` on both viewsets: an
anonymous request is rejected with 401 before the handler body runs. -/
def withAuth {A : Type} (auth : Option Nat) (k : Nat → Except Err A) :
    Except Err A :=
  match auth with
  | none => .error .unauthorized
  | some u => k u

def recipeListEndpoint (auth : Option Nat) (db : DB) :
    Except Err (List (List (String × Val))) :=
  withAuth auth (fun u => .ok (recipeListOp u db))

def recipeRetrieveEndpoint (auth : Option Nat) (db : DB) (i : Nat) :
    Except Err (List (String × Val)) :=
  withAuth auth (fun u => recipeRetrieveOp u db i)

def recipeCreateEndpoint (auth : Option Nat) (db : DB)
    (raw : List (String × Val)) : Except Err (Recipe × DB) :=
  withAuth auth (fun u => recipeCreateOp u db raw)

def recipeUpdateEndpoint (auth : Option Nat) (db : DB) (i : Nat)
    (raw : List (String × Val)) (isPartial : Bool) : Except Err (Recipe × DB) :=
  withAuth auth (fun u => recipeUpdateOp u db i raw isPartial)

def recipeDestroyEndpoint (auth : Option Nat) (db : DB) (i : Nat) :
    Except Err DB :=
  withAuth auth (fun u => recipeDestroyOp u db i)

def tagListEndpoint (auth : Option Nat) (db : DB) :
    Except Err (List (List (String × Val))) :=
  withAuth auth (fun u => .ok (tagListOp u db))

def tagUpdateEndpoint (auth : Option Nat) (db : DB) (i : Nat)
    (raw : List (String × Val)) (isPartial : Bool) : Except Err (Tag × DB) :=
  withAuth auth (fun u => tagUpdateOp u db i raw isPartial)

def tagDestroyEndpoint (auth : Option Nat) (db : DB) (i : Nat) :
    Except Err DB :=
  withAuth auth (fun u => tagDestroyOp u db i)

/-! ### Viewset action sets -/

/-- The framework's resource actions. -/
inductive Action where
  | list : Action
  | retrieve : Action
  | create : Action
  | update : Action
  | partialUpdate : Action
  | destroy : Action
deriving DecidableEq, Repr

/-- Actions contributed by `mixins.DestroyModelMixin`. -/
def destroyMixinActions : List Action := [.destroy]

/-- Actions contributed by `mixins.UpdateModelMixin`. -/
def updateMixinActions : List Action := [.update, .partialUpdate]

/-- Actions contributed by `mixins.ListModelMixin`. -/
def listMixinActions : List Action := [.list]

/-- `TagViewSet(DestroyModelMixin, UpdateModelMixin, ListModelMixin,
GenericViewSet)`: exactly the actions its three mixins contribute
(`GenericViewSet` itself contributes none). -/
def tagViewSetActions : List Action :=
  destroyMixinActions ++ updateMixinActions ++ listMixinActions

/-- Whether the tag resource handler routes an action at all. -/
def tagSupports (a : Action) : Bool := tagViewSetActions.contains a

/-! ### Order instances for the two `order_by` relations -/

instance : IsTotal Recipe (fun a b => b.id ≤ a.id) :=
  ⟨fun a b => Nat.le_total b.id a.id⟩

instance : IsTrans Recipe (fun a b => b.id ≤ a.id) :=
  ⟨fun _ _ _ h1 h2 => le_trans h2 h1⟩

instance : IsTotal Tag (fun a b => b.name ≤ a.name) :=
  ⟨fun a b => le_total b.name a.name⟩

instance : IsTrans Tag (fun a b => b.name ≤ a.name) :=
  ⟨fun _ _ _ h1 h2 => le_trans h2 h1⟩

/-! ### Theorems -/

/-- C5: every unauthenticated request to any recipe or tag
list/retrieve/create/update/delete operation fails with Unauthorized,
regardless of the payload or the id addressed, and — since an error result
carries no successor state — before any ownership check or data access. -/
theorem unauthenticatedAlwaysRejected (db : DB) (i : Nat)
    (raw : List (String × Val)) (p : Bool) :
    recipeListEndpoint none db = .error .unauthorized
    ∧ recipeRetrieveEndpoint none db i = .error .unauthorized
    ∧ recipeCreateEndpoint none db raw = .error .unauthorized
    ∧ recipeUpdateEndpoint none db i raw p = .error .unauthorized
    ∧ recipeDestroyEndpoint none db i = .error .unauthorized
    ∧ tagListEndpoint none db = .error .unauthorized
    ∧ tagUpdateEndpoint none db i raw p = .error .unauthorized
    ∧ tagDestroyEndpoint none db i = .error .unauthorized :=
  ⟨rfl, rfl, rfl, rfl, rfl, rfl, rfl, rfl⟩

/-- C9: the detail representation of a Recipe equals the base
representation — `RecipeDetailSerializer` renders exactly the same fields
with the same values as `RecipeSerializer`, because the `description` field
it appends is already in the base field list and the framework's field
dictionary collapses the duplicate. -/
theorem detailRepresentationEqualsBase (db : DB) (r : Recipe) :
    renderRecipe recipeDetailFields db r = renderRecipe recipeFields db r :=
  rfl

/-- C8: the tag resource handler supports exactly list, update,
partial update and destroy — no standalone create and no retrieve-by-id —
and its list returns only the authenticated user's tags, ordered by
descending name, rendered with the tag serializer. -/
theorem tagHandlerContract (db : DB) (u : Nat) :
    tagSupports .list = true
    ∧ tagSupports .update = true
    ∧ tagSupports .partialUpdate = true
    ∧ tagSupports .destroy = true
    ∧ tagSupports .create = false
    ∧ tagSupports .retrieve = false
    ∧ tagListOp u db = (tagGetQueryset db u).map renderTag
    ∧ List.Perm (tagGetQueryset db u) (db.tags.filter (fun t => t.user == u))
    ∧ (tagGetQueryset db u).all (fun t => t.user == u) = true
    ∧ List.Sorted (fun a b => b.name ≤ a.name) (tagGetQueryset db u) := by
  refine ⟨rfl, rfl, rfl, rfl, rfl, rfl, rfl,
    List.perm_insertionSort _ _, ?_, List.sorted_insertionSort _ _⟩
  rw [List.all_eq_true]
  intro t ht
  have htf : t ∈ db.tags.filter (fun t => t.user == u) :=
    (List.perm_insertionSort _ _).mem_iff.mp ht
  exact (List.mem_filter.mp htf).2

/-- C4: the recipe list operation returns exactly the recipes owned by the
authenticated user, ordered by descending id, each rendered with the detail
representation (whose field set includes description and tags). -/
theorem recipeListContract (db : DB) (u : Nat) :
    recipeListOp u db
      = (recipeGetQueryset db u).map (renderRecipe recipeDetailFields db)
    ∧ List.Perm (recipeGetQueryset db u)
        (db.recipes.filter (fun r => r.user == u))
    ∧ (recipeGetQueryset db u).all (fun r => r.user == u) = true
    ∧ List.Sorted (fun a b => b.id ≤ a.id) (recipeGetQueryset db u)
    ∧ (recipeListOp u db).all (fun out =>
        (out.map Prod.fst).contains "description"
        && (out.map Prod.fst).contains "tags") = true := by
  refine ⟨rfl, List.perm_insertionSort _ _, ?_,
    List.sorted_insertionSort _ _, ?_⟩
  · rw [List.all_eq_true]
    intro r hr
    have hrf : r ∈ db.recipes.filter (fun r => r.user == u) :=
      (List.perm_insertionSort _ _).mem_iff.mp hr
    exact (List.mem_filter.mp hrf).2
  · rw [List.all_eq_true]
    intro out hout
    obtain ⟨r, _, hr⟩ := List.mem_map.mp hout
    subst hr
    rfl

/-- In a database with distinct recipe ids, a pk lookup scoped to a user
other than the row's owner finds nothing. -/
lemma getOwnedRecipe_foreign_none (db : DB) (u2 : Nat) (r : Recipe)
    (hids : (db.recipes.map Recipe.id).Nodup)
    (hr : r ∈ db.recipes) (hru : r.user ≠ u2) :
    getOwnedRecipe db u2 r.id = none := by
  unfold getOwnedRecipe
  rw [List.find?_eq_none]
  intro x hx
  have hxf : x ∈ db.recipes.filter (fun q => q.user == u2) :=
    (List.perm_insertionSort _ _).mem_iff.mp hx
  obtain ⟨hxm, hxu⟩ := List.mem_filter.mp hxf
  simp only [beq_iff_eq] at hxu ⊢
  intro hid
  have hxr : x = r := List.inj_on_of_nodup_map hids hxm hr hid
  exact hru (hxr ▸ hxu)

/-- Analogue of `getOwnedRecipe_foreign_none` for tags. -/
lemma getOwnedTag_foreign_none (db : DB) (u2 : Nat) (t : Tag)
    (hids : (db.tags.map Tag.id).Nodup)
    (ht : t ∈ db.tags) (htu : t.user ≠ u2) :
    getOwnedTag db u2 t.id = none := by
  unfold getOwnedTag
  rw [List.find?_eq_none]
  intro x hx
  have hxf : x ∈ db.tags.filter (fun q => q.user == u2) :=
    (List.perm_insertionSort _ _).mem_iff.mp hx
  obtain ⟨hxm, hxu⟩ := List.mem_filter.mp hxf
  simp only [beq_iff_eq] at hxu ⊢
  intro hid
  have hxr : x = t := List.inj_on_of_nodup_map hids hxm ht hid
  exact htu (hxr ▸ hxu)

/-- C1: for distinct users, a Recipe or Tag owned by the first never
appears in the second's list queryset, and the second's retrieve, update
and delete requests addressed to its id fail with NotFound (the very error
a missing id produces), the database being untouched since a failing
operation returns no successor state. -/
theorem ownershipIsolation (db : DB) (u1 u2 : Nat) (r : Recipe) (t : Tag)
    (raw : List (String × Val)) (p : Bool)
    (hids : (db.recipes.map Recipe.id).Nodup)
    (htids : (db.tags.map Tag.id).Nodup)
    (hr : r ∈ db.recipes) (hru : r.user = u1)
    (ht : t ∈ db.tags) (htu : t.user = u1)
    (hne : u1 ≠ u2) :
    r ∉ recipeGetQueryset db u2
    ∧ recipeRetrieveOp u2 db r.id = .error .notFound
    ∧ recipeUpdateOp u2 db r.id raw p = .error .notFound
    ∧ recipeDestroyOp u2 db r.id = .error .notFound
    ∧ t ∉ tagGetQueryset db u2
    ∧ tagUpdateOp u2 db t.id raw p = .error .notFound
    ∧ tagDestroyOp u2 db t.id = .error .notFound := by
  have hru2 : r.user ≠ u2 := by rw [hru]; exact hne
  have htu2 : t.user ≠ u2 := by rw [htu]; exact hne
  have hnr := getOwnedRecipe_foreign_none db u2 r hids hr hru2
  have hnt := getOwnedTag_foreign_none db u2 t htids ht htu2
  refine ⟨?_, ?_, ?_, ?_, ?_, ?_, ?_⟩
  · intro hmem
    have hf : r ∈ db.recipes.filter (fun q => q.user == u2) :=
      (List.perm_insertionSort _ _).mem_iff.mp hmem
    have := (List.mem_filter.mp hf).2
    exact hru2 (by simpa using this)
  · simp [recipeRetrieveOp, hnr]
  · simp [recipeUpdateOp, hnr]
  · simp [recipeDestroyOp, hnr]
  · intro hmem
    have hf : t ∈ db.tags.filter (fun q => q.user == u2) :=
      (List.perm_insertionSort _ _).mem_iff.mp hmem
    have := (List.mem_filter.mp hf).2
    exact htu2 (by simpa using this)
  · simp [tagUpdateOp, hnt]
  · simp [tagDestroyOp, hnt]

/-- Concrete instance of `ownershipIsolation`: user 1 owns recipe 1 and
tag 1; user 2 cannot see or touch either. -/
theorem ownershipIsolation_witness :
    (([⟨1, 1, "A", 3, 100, "", "", []⟩].map Recipe.id).Nodup
    ∧ ([⟨1, 1, "Vegan"⟩].map Tag.id).Nodup
    ∧ (⟨1, 1, "A", 3, 100, "", "", []⟩ : Recipe)
        ∈ [(⟨1, 1, "A", 3, 100, "", "", []⟩ : Recipe)]
    ∧ (⟨1, 1, "Vegan"⟩ : Tag) ∈ [(⟨1, 1, "Vegan"⟩ : Tag)]
    ∧ (1 : Nat) ≠ 2)
    ∧ ((⟨1, 1, "A", 3, 100, "", "", []⟩ : Recipe)
        ∉ recipeGetQueryset ⟨[⟨1, 1, "A", 3, 100, "", "", []⟩], [⟨1, 1, "Vegan"⟩], 2, 2⟩ 2
    ∧ recipeRetrieveOp 2 ⟨[⟨1, 1, "A", 3, 100, "", "", []⟩], [⟨1, 1, "Vegan"⟩], 2, 2⟩ 1
        = .error .notFound
    ∧ recipeUpdateOp 2 ⟨[⟨1, 1, "A", 3, 100, "", "", []⟩], [⟨1, 1, "Vegan"⟩], 2, 2⟩ 1 [] true
        = .error .notFound
    ∧ recipeDestroyOp 2 ⟨[⟨1, 1, "A", 3, 100, "", "", []⟩], [⟨1, 1, "Vegan"⟩], 2, 2⟩ 1
        = .error .notFound
    ∧ (⟨1, 1, "Vegan"⟩ : Tag)
        ∉ tagGetQueryset ⟨[⟨1, 1, "A", 3, 100, "", "", []⟩], [⟨1, 1, "Vegan"⟩], 2, 2⟩ 2
    ∧ tagUpdateOp 2 ⟨[⟨1, 1, "A", 3, 100, "", "", []⟩], [⟨1, 1, "Vegan"⟩], 2, 2⟩ 1 [] true
        = .error .notFound
    ∧ tagDestroyOp 2 ⟨[⟨1, 1, "A", 3, 100, "", "", []⟩], [⟨1, 1, "Vegan"⟩], 2, 2⟩ 1
        = .error .notFound) :=
  ⟨⟨by decide, by decide, by decide, by decide, by decide⟩,
    ownershipIsolation ⟨[⟨1, 1, "A", 3, 100, "", "", []⟩], [⟨1, 1, "Vegan"⟩], 2, 2⟩
      1 2 ⟨1, 1, "A", 3, 100, "", "", []⟩ ⟨1, 1, "Vegan"⟩ [] true
      (by decide) (by decide) (by decide) (by decide) (by decide) (by decide)
      (by decide)⟩

/-- `setField` never touches the owner: no serializer field writes it. -/
lemma setField_user (r : Recipe) (f : String) (v : Val) :
    (setField r f v).user = r.user := by
  unfold setField; split <;> rfl

/-- `setField` never touches the server-assigned id. -/
lemma setField_id (r : Recipe) (f : String) (v : Val) :
    (setField r f v).id = r.id := by
  unfold setField; split <;> rfl

/-- `setField` never touches the tag associations. -/
lemma setField_tags (r : Recipe) (f : String) (v : Val) :
    (setField r f v).tags = r.tags := by
  unfold setField; split <;> rfl

/-- Applying any validated field list preserves the owner. -/
lemma applyFields_user (l : List (String × Val)) (r : Recipe) :
    (applyFields r l).user = r.user := by
  induction l generalizing r with
  | nil => rfl
  | cons p rest ih =>
    show (applyFields (setField r p.1 p.2) rest).user = r.user
    rw [ih, setField_user]

/-- The recipe row built by `RecipeSerializer.create` is owned by the
authenticated user handed over by `perform_create`. -/
lemma recipeSerializerCreate_user (u : Nat) (db : DB)
    (validated : List (String × Val)) :
    (recipeSerializerCreate u db validated).1.user = u := by
  unfold recipeSerializerCreate
  exact applyFields_user _ _

/-- C2: recipe create assigns the authenticated identity as owner and, for
a payload carrying two fresh tag names, appends exactly two new Tag rows
owned by the creator (ids from the tag sequence) and associates both, in
order, to the new Recipe, which is appended to the recipe table. -/
theorem createWithTwoFreshTags (u : Nat) (db : DB)
    (validated : List (String × Val)) (n1 n2 : String)
    (hv : tagNamesOfValidated validated = [n1, n2])
    (hne : n1 ≠ n2)
    (h1 : ∀ t ∈ db.tags, ¬(t.user = u ∧ t.name = n1))
    (h2 : ∀ t ∈ db.tags, ¬(t.user = u ∧ t.name = n2)) :
    (recipeSerializerCreate u db validated).1.user = u
    ∧ (recipeSerializerCreate u db validated).2.tags
        = db.tags ++ [⟨db.nextTagId, u, n1⟩, ⟨db.nextTagId + 1, u, n2⟩]
    ∧ (recipeSerializerCreate u db validated).2.tags.length
        = db.tags.length + 2
    ∧ (recipeSerializerCreate u db validated).1.tags
        = [db.nextTagId, db.nextTagId + 1]
    ∧ (recipeSerializerCreate u db validated).2.recipes
        = db.recipes ++ [(recipeSerializerCreate u db validated).1] := by
  have hf1 : db.tags.find? (fun t => t.user == u && t.name == n1) = none := by
    rw [List.find?_eq_none]
    intro t htm
    simp only [Bool.and_eq_true, beq_iff_eq, not_and]
    intro hu hn
    exact h1 t htm ⟨hu, hn⟩
  have hf2 : (db.tags ++ [(⟨db.nextTagId, u, n1⟩ : Tag)]).find?
      (fun t => t.user == u && t.name == n2) = none := by
    rw [List.find?_eq_none]
    intro t htm
    rcases List.mem_append.mp htm with hin | hone
    · simp only [Bool.and_eq_true, beq_iff_eq, not_and]
      intro hu hn
      exact h2 t hin ⟨hu, hn⟩
    · have : t = (⟨db.nextTagId, u, n1⟩ : Tag) := by simpa using hone
      subst this
      simp only [Bool.and_eq_true, beq_iff_eq, not_and]
      intro _ hn
      exact hne hn
  have hloop : tagLoop u [n1, n2] db.tags db.nextTagId []
      = ([db.nextTagId, db.nextTagId + 1],
         db.tags ++ [⟨db.nextTagId, u, n1⟩, ⟨db.nextTagId + 1, u, n2⟩],
         db.nextTagId + 2) := by
    rw [tagLoop, hf1]
    rw [tagLoop, hf2]
    rw [tagLoop]
    simp [m2mAdd]
  refine ⟨recipeSerializerCreate_user u db validated, ?_, ?_, ?_, ?_⟩ <;>
    simp [recipeSerializerCreate, hv, hloop]

/-- Concrete instance of `createWithTwoFreshTags`: creating a recipe with
tags Thai and Dinner in an empty database yields two new tag rows. -/
theorem createWithTwoFreshTags_witness :
    (tagNamesOfValidated
        [("title", .vStr "Curry"), ("time_minutes", .vNat 30),
         ("price", .vInt 599), ("tags", .vTagNames ["Thai", "Dinner"])]
        = ["Thai", "Dinner"]
    ∧ ("Thai" : String) ≠ "Dinner"
    ∧ (∀ t ∈ (⟨[], [], 1, 1⟩ : DB).tags, ¬(t.user = 7 ∧ t.name = "Thai"))
    ∧ (∀ t ∈ (⟨[], [], 1, 1⟩ : DB).tags, ¬(t.user = 7 ∧ t.name = "Dinner")))
    ∧ ((recipeSerializerCreate 7 ⟨[], [], 1, 1⟩
          [("title", .vStr "Curry"), ("time_minutes", .vNat 30),
           ("price", .vInt 599), ("tags", .vTagNames ["Thai", "Dinner"])]).1.user = 7
    ∧ (recipeSerializerCreate 7 ⟨[], [], 1, 1⟩
          [("title", .vStr "Curry"), ("time_minutes", .vNat 30),
           ("price", .vInt 599), ("tags", .vTagNames ["Thai", "Dinner"])]).2.tags
        = (⟨[], [], 1, 1⟩ : DB).tags ++ [⟨1, 7, "Thai"⟩, ⟨2, 7, "Dinner"⟩]
    ∧ (recipeSerializerCreate 7 ⟨[], [], 1, 1⟩
          [("title", .vStr "Curry"), ("time_minutes", .vNat 30),
           ("price", .vInt 599), ("tags", .vTagNames ["Thai", "Dinner"])]).2.tags.length
        = (⟨[], [], 1, 1⟩ : DB).tags.length + 2
    ∧ (recipeSerializerCreate 7 ⟨[], [], 1, 1⟩
          [("title", .vStr "Curry"), ("time_minutes", .vNat 30),
           ("price", .vInt 599), ("tags", .vTagNames ["Thai", "Dinner"])]).1.tags
        = [1, 2]
    ∧ (recipeSerializerCreate 7 ⟨[], [], 1, 1⟩
          [("title", .vStr "Curry"), ("time_minutes", .vNat 30),
           ("price", .vInt 599), ("tags", .vTagNames ["Thai", "Dinner"])]).2.recipes
        = (⟨[], [], 1, 1⟩ : DB).recipes
            ++ [(recipeSerializerCreate 7 ⟨[], [], 1, 1⟩
                  [("title", .vStr "Curry"), ("time_minutes", .vNat 30),
                   ("price", .vInt 599),
                   ("tags", .vTagNames ["Thai", "Dinner"])]).1]) :=
  ⟨⟨by decide, by decide, by decide, by decide⟩,
    createWithTwoFreshTags 7 ⟨[], [], 1, 1⟩
      [("title", .vStr "Curry"), ("time_minutes", .vNat 30),
       ("price", .vInt 599), ("tags", .vTagNames ["Thai", "Dinner"])]
      "Thai" "Dinner" (by decide) (by decide) (by decide) (by decide)⟩

/-- Number of Tag rows a user owns with a given name. -/
def countTag (tags : List Tag) (u : Nat) (n : String) : Nat :=
  (tags.filter (fun t => t.user == u && t.name == n)).length

/-- Many-to-many `add` preserves existing associations. -/
lemma m2mAdd_mem {l : List Nat} {i : Nat} (j : Nat) (h : i ∈ l) :
    i ∈ m2mAdd l j := by
  unfold m2mAdd
  split
  · exact h
  · exact List.mem_append_left _ h

/-- Many-to-many `add` makes its argument associated. -/
lemma m2mAdd_self (l : List Nat) (i : Nat) : i ∈ m2mAdd l i := by
  unfold m2mAdd
  split
  · next h => simpa using h
  · exact List.mem_append_right _ (List.mem_singleton.mpr rfl)

/-- The association list produced by the per-tag loop only grows. -/
lemma tagLoop_acc_mono (u : Nat) (names : List String) :
    ∀ (tags : List Tag) (next : Nat) (acc : List Nat) (i : Nat),
      i ∈ acc → i ∈ (tagLoop u names tags next acc).1 := by
  induction names with
  | nil => intro tags next acc i h; exact h
  | cons m rest ih =>
    intro tags next acc i h
    cases hfind : tags.find? (fun t => t.user == u && t.name == m) with
    | some t =>
      simp only [tagLoop, hfind]
      exact ih _ _ _ _ (m2mAdd_mem t.id h)
    | none =>
      simp only [tagLoop, hfind]
      exact ih _ _ _ _ (m2mAdd_mem next h)

/-- If some row with the looked-up (owner, name) pair already exists,
the per-tag loop never changes how many rows carry that pair. -/
lemma tagLoop_count (u : Nat) (names : List String) :
    ∀ (tags : List Tag) (next : Nat) (acc : List Nat) (n : String),
      (∃ t ∈ tags, t.user = u ∧ t.name = n) →
      countTag (tagLoop u names tags next acc).2.1 u n = countTag tags u n := by
  induction names with
  | nil => intro tags next acc n _; rfl
  | cons m rest ih =>
    intro tags next acc n hex
    cases hfind : tags.find? (fun t => t.user == u && t.name == m) with
    | some t =>
      simp only [tagLoop, hfind]
      exact ih tags next _ n hex
    | none =>
      simp only [tagLoop, hfind]
      have hmn : m ≠ n := by
        rintro rfl
        obtain ⟨t0, ht0, hu0, hn0⟩ := hex
        have := List.find?_eq_none.mp hfind t0 ht0
        simp [hu0, hn0] at this
      have hcount : countTag (tags ++ [⟨next, u, m⟩]) u n = countTag tags u n := by
        unfold countTag
        rw [List.filter_append]
        simp [hmn]
      obtain ⟨t0, ht0, hp⟩ := hex
      rw [ih (tags ++ [⟨next, u, m⟩]) (next + 1) (m2mAdd acc next) n
        ⟨t0, List.mem_append_left _ ht0, hp⟩]
      exact hcount

/-- If the looked-up (owner, name) pair already has a first match `t0`,
processing a payload containing that name associates exactly `t0`. -/
lemma tagLoop_assoc (u : Nat) (names : List String) :
    ∀ (tags : List Tag) (next : Nat) (acc : List Nat) (n : String) (t0 : Tag),
      tags.find? (fun t => t.user == u && t.name == n) = some t0 →
      n ∈ names →
      t0.id ∈ (tagLoop u names tags next acc).1 := by
  induction names with
  | nil =>
    intro tags next acc n t0 _ hmem
    exact absurd hmem (List.not_mem_nil n)
  | cons m rest ih =>
    intro tags next acc n t0 hfind hmem
    by_cases hmn : m = n
    · subst hmn
      simp only [tagLoop, hfind]
      exact tagLoop_acc_mono u rest _ _ _ _ (m2mAdd_self acc t0.id)
    · have hrest : n ∈ rest := by
        rcases List.mem_cons.mp hmem with h | h
        · exact absurd h.symm hmn
        · exact h
      cases hfindm : tags.find? (fun t => t.user == u && t.name == m) with
      | some t =>
        simp only [tagLoop, hfindm]
        exact ih _ _ _ _ _ hfind hrest
      | none =>
        simp only [tagLoop, hfindm]
        refine ih _ _ _ _ _ ?_ hrest
        rw [List.find?_append, hfind]
        rfl

/-- C3: the per-tag get-or-create step is idempotent in the (owner, name)
key — when a Tag with the requested name already exists under the same
owner, recipe creation associates that existing row (the queryset's first
match) and the number of Tag rows that owner has with that name does not
increase. -/
theorem getOrCreateIdempotent (u : Nat) (db : DB)
    (validated : List (String × Val)) (n : String) (t0 : Tag)
    (hfind : db.tags.find? (fun t => t.user == u && t.name == n) = some t0)
    (hmem : n ∈ tagNamesOfValidated validated) :
    countTag (recipeSerializerCreate u db validated).2.tags u n
      = countTag db.tags u n
    ∧ t0.id ∈ (recipeSerializerCreate u db validated).1.tags := by
  have hex : ∃ t ∈ db.tags, t.user = u ∧ t.name = n := by
    refine ⟨t0, List.mem_of_find?_eq_some hfind, ?_⟩
    have := List.find?_some hfind
    simpa using this
  exact ⟨tagLoop_count u (tagNamesOfValidated validated) db.tags
      db.nextTagId [] n hex,
    tagLoop_assoc u (tagNamesOfValidated validated) db.tags
      db.nextTagId [] n t0 hfind hmem⟩

/-- Concrete instance of `getOrCreateIdempotent`: re-submitting the
existing tag name Thai creates no new row and reuses row 1. -/
theorem getOrCreateIdempotent_witness :
    ((⟨[], [⟨1, 7, "Thai"⟩], 5, 2⟩ : DB).tags.find?
        (fun t => t.user == 7 && t.name == "Thai") = some ⟨1, 7, "Thai"⟩
    ∧ "Thai" ∈ tagNamesOfValidated [("tags", .vTagNames ["Thai"])])
    ∧ (countTag (recipeSerializerCreate 7 ⟨[], [⟨1, 7, "Thai"⟩], 5, 2⟩
          [("tags", .vTagNames ["Thai"])]).2.tags 7 "Thai"
        = countTag (⟨[], [⟨1, 7, "Thai"⟩], 5, 2⟩ : DB).tags 7 "Thai"
    ∧ (1 : Nat) ∈ (recipeSerializerCreate 7 ⟨[], [⟨1, 7, "Thai"⟩], 5, 2⟩
          [("tags", .vTagNames ["Thai"])]).1.tags) :=
  ⟨⟨by decide, by decide⟩,
    getOrCreateIdempotent 7 ⟨[], [⟨1, 7, "Thai"⟩], 5, 2⟩
      [("tags", .vTagNames ["Thai"])] "Thai" ⟨1, 7, "Thai"⟩
      (by decide) (by decide)⟩

/-- The (owner, name) key of every Tag row, in table order. -/
def tagKeys (tags : List Tag) : List (Nat × String) :=
  tags.map (fun t => (t.user, t.name))

/-- Many-to-many `add` never produces a duplicate association. -/
lemma m2mAdd_nodup {l : List Nat} (i : Nat) (h : l.Nodup) :
    (m2mAdd l i).Nodup := by
  unfold m2mAdd
  split
  · exact h
  · next hc =>
    rw [List.nodup_append]
    refine ⟨h, List.nodup_singleton i, ?_⟩
    rw [List.disjoint_singleton]
    simpa using hc

/-- The per-tag loop keeps the association list duplicate-free. -/
lemma tagLoop_acc_nodup (u : Nat) (names : List String) :
    ∀ (tags : List Tag) (next : Nat) (acc : List Nat),
      acc.Nodup → (tagLoop u names tags next acc).1.Nodup := by
  induction names with
  | nil => intro tags next acc h; exact h
  | cons m rest ih =>
    intro tags next acc h
    cases hfind : tags.find? (fun t => t.user == u && t.name == m) with
    | some t =>
      simp only [tagLoop, hfind]
      exact ih _ _ _ (m2mAdd_nodup t.id h)
    | none =>
      simp only [tagLoop, hfind]
      exact ih _ _ _ (m2mAdd_nodup next h)

/-- The per-tag loop preserves per-owner uniqueness of tag names: a new
row is only inserted when the lookup for its (owner, name) pair failed. -/
lemma tagLoop_keys_nodup (u : Nat) (names : List String) :
    ∀ (tags : List Tag) (next : Nat) (acc : List Nat),
      (tagKeys tags).Nodup → (tagKeys (tagLoop u names tags next acc).2.1).Nodup := by
  induction names with
  | nil => intro tags next acc h; exact h
  | cons m rest ih =>
    intro tags next acc h
    cases hfind : tags.find? (fun t => t.user == u && t.name == m) with
    | some t =>
      simp only [tagLoop, hfind]
      exact ih _ _ _ h
    | none =>
      simp only [tagLoop, hfind]
      refine ih _ _ _ ?_
      have hnew : ((u, m) : Nat × String) ∉ tagKeys tags := by
        intro hk
        obtain ⟨t0, ht0, hkey⟩ := List.mem_map.mp hk
        have := List.find?_eq_none.mp hfind t0 ht0
        have hu0 : t0.user = u := congrArg Prod.fst hkey
        have hn0 : t0.name = m := congrArg Prod.snd hkey
        simp [hu0, hn0] at this
      unfold tagKeys
      rw [List.map_append, List.nodup_append]
      refine ⟨h, by simp, ?_⟩
      simpa [tagKeys, List.disjoint_singleton] using hnew

/-- The tag table only grows during the per-tag loop. -/
lemma tagLoop_tags_mono (u : Nat) (names : List String) :
    ∀ (tags : List Tag) (next : Nat) (acc : List Nat) (t : Tag),
      t ∈ tags → t ∈ (tagLoop u names tags next acc).2.1 := by
  induction names with
  | nil => intro tags next acc t h; exact h
  | cons m rest ih =>
    intro tags next acc t h
    cases hfind : tags.find? (fun x => x.user == u && x.name == m) with
    | some t0 =>
      simp only [tagLoop, hfind]
      exact ih _ _ _ _ h
    | none =>
      simp only [tagLoop, hfind]
      exact ih _ _ _ _ (List.mem_append_left _ h)

/-- Every payload tag name ends up backed by a row of the final tag table
that is owned by the requesting user and associated to the recipe. -/
lemma tagLoop_covers (u : Nat) (names : List String) :
    ∀ (tags : List Tag) (next : Nat) (acc : List Nat) (n : String),
      n ∈ names →
      ∃ t, t ∈ (tagLoop u names tags next acc).2.1
        ∧ t.id ∈ (tagLoop u names tags next acc).1
        ∧ t.user = u ∧ t.name = n := by
  induction names with
  | nil =>
    intro tags next acc n hn
    exact absurd hn (List.not_mem_nil n)
  | cons m rest ih =>
    intro tags next acc n hn
    cases hfind : tags.find? (fun x => x.user == u && x.name == m) with
    | some t0 =>
      simp only [tagLoop, hfind]
      by_cases hmn : n = m
      · subst hmn
        have hpred := List.find?_some hfind
        simp only [Bool.and_eq_true, beq_iff_eq] at hpred
        exact ⟨t0,
          tagLoop_tags_mono u rest _ _ _ t0 (List.mem_of_find?_eq_some hfind),
          tagLoop_acc_mono u rest _ _ _ _ (m2mAdd_self acc t0.id),
          hpred.1, hpred.2⟩
      · have hrest : n ∈ rest := by
          rcases List.mem_cons.mp hn with h | h
          · exact absurd h hmn
          · exact h
        exact ih _ _ _ n hrest
    | none =>
      simp only [tagLoop, hfind]
      by_cases hmn : n = m
      · subst hmn
        exact ⟨⟨next, u, n⟩,
          tagLoop_tags_mono u rest _ _ _ _
            (List.mem_append_right _ (List.mem_singleton.mpr rfl)),
          tagLoop_acc_mono u rest _ _ _ _ (m2mAdd_self acc next),
          rfl, rfl⟩
      · have hrest : n ∈ rest := by
          rcases List.mem_cons.mp hn with h | h
          · exact absurd h hmn
          · exact h
        exact ih _ _ _ n hrest

/-- C10: creating a recipe with the tags list omitted leaves the tag table
untouched and associates nothing; with any tags list — duplicate names
included — the new recipe's association list is duplicate-free, the tag
table keeps at most one row per (owner, name) pair if it had at most one
before, and every payload name is backed by a row of the final table owned
by the creator whose id is associated to the recipe exactly once. -/
theorem createTagsOmittedOrDuplicated (u : Nat) (db : DB)
    (v1 v2 : List (String × Val))
    (h1 : tagNamesOfValidated v1 = [])
    (hkeys : (tagKeys db.tags).Nodup) :
    (recipeSerializerCreate u db v1).2.tags = db.tags
    ∧ (recipeSerializerCreate u db v1).1.tags = []
    ∧ (recipeSerializerCreate u db v1).2.recipes
        = db.recipes ++ [(recipeSerializerCreate u db v1).1]
    ∧ (recipeSerializerCreate u db v2).1.tags.Nodup
    ∧ (tagKeys (recipeSerializerCreate u db v2).2.tags).Nodup
    ∧ (tagNamesOfValidated v2).all (fun n =>
        (recipeSerializerCreate u db v2).2.tags.any (fun t =>
          t.user == u && t.name == n
            && ((recipeSerializerCreate u db v2).1.tags.count t.id == 1)))
      = true := by
  refine ⟨?_, ?_, rfl, ?_, ?_, ?_⟩
  · show (tagLoop u (tagNamesOfValidated v1) db.tags db.nextTagId []).2.1
      = db.tags
    rw [h1, tagLoop]
  · show (tagLoop u (tagNamesOfValidated v1) db.tags db.nextTagId []).1 = []
    rw [h1, tagLoop]
  · exact tagLoop_acc_nodup u _ db.tags db.nextTagId [] List.nodup_nil
  · exact tagLoop_keys_nodup u _ db.tags db.nextTagId [] hkeys
  · rw [List.all_eq_true]
    intro n hn
    obtain ⟨t, htm, hti, htu, htn⟩ :=
      tagLoop_covers u (tagNamesOfValidated v2) db.tags db.nextTagId [] n hn
    rw [List.any_eq_true]
    refine ⟨t, htm, ?_⟩
    have hnodup : (recipeSerializerCreate u db v2).1.tags.Nodup :=
      tagLoop_acc_nodup u _ db.tags db.nextTagId [] List.nodup_nil
    have hcount : (recipeSerializerCreate u db v2).1.tags.count t.id = 1 :=
      List.count_eq_one_of_mem hnodup hti
    simp [htu, htn, hcount]

/-- Concrete instance of `createTagsOmittedOrDuplicated`: a payload with
no tags entry touches no tag row, and a payload naming Thai twice yields
no duplicate row, with Thai backed by one row associated exactly once. -/
theorem createTagsOmittedOrDuplicated_witness :
    (tagNamesOfValidated [("title", .vStr "Soup")] = []
    ∧ (tagKeys (⟨[], [⟨1, 7, "Dinner"⟩], 4, 2⟩ : DB).tags).Nodup)
    ∧ ((recipeSerializerCreate 7 ⟨[], [⟨1, 7, "Dinner"⟩], 4, 2⟩
          [("title", .vStr "Soup")]).2.tags
        = (⟨[], [⟨1, 7, "Dinner"⟩], 4, 2⟩ : DB).tags
    ∧ (recipeSerializerCreate 7 ⟨[], [⟨1, 7, "Dinner"⟩], 4, 2⟩
          [("title", .vStr "Soup")]).1.tags = []
    ∧ (recipeSerializerCreate 7 ⟨[], [⟨1, 7, "Dinner"⟩], 4, 2⟩
          [("title", .vStr "Soup")]).2.recipes
        = (⟨[], [⟨1, 7, "Dinner"⟩], 4, 2⟩ : DB).recipes
            ++ [(recipeSerializerCreate 7 ⟨[], [⟨1, 7, "Dinner"⟩], 4, 2⟩
                  [("title", .vStr "Soup")]).1]
    ∧ (recipeSerializerCreate 7 ⟨[], [⟨1, 7, "Dinner"⟩], 4, 2⟩
          [("tags", .vTagNames ["Thai", "Thai"])]).1.tags.Nodup
    ∧ (tagKeys (recipeSerializerCreate 7 ⟨[], [⟨1, 7, "Dinner"⟩], 4, 2⟩
          [("tags", .vTagNames ["Thai", "Thai"])]).2.tags).Nodup
    ∧ (tagNamesOfValidated [("tags", .vTagNames ["Thai", "Thai"])]).all (fun n =>
        (recipeSerializerCreate 7 ⟨[], [⟨1, 7, "Dinner"⟩], 4, 2⟩
            [("tags", .vTagNames ["Thai", "Thai"])]).2.tags.any (fun t =>
          t.user == 7 && t.name == n
            && ((recipeSerializerCreate 7 ⟨[], [⟨1, 7, "Dinner"⟩], 4, 2⟩
                  [("tags", .vTagNames ["Thai", "Thai"])]).1.tags.count t.id
                == 1)))
      = true) :=
  ⟨⟨by decide, by decide⟩,
    createTagsOmittedOrDuplicated 7 ⟨[], [⟨1, 7, "Dinner"⟩], 4, 2⟩
      [("title", .vStr "Soup")] [("tags", .vTagNames ["Thai", "Thai"])]
      (by decide) (by decide)⟩

/-- Pre-filtering by a predicate every kept element already satisfies does
not change a filter's result. -/
lemma filter_of_filter_stronger {A : Type} (p q : A → Bool) (l : List A)
    (h : ∀ a, p a = true → q a = true) :
    l.filter p = (l.filter q).filter p := by
  induction l with
  | nil => rfl
  | cons a l ih =>
    cases hp : p a
    · cases hq : q a <;> simp [List.filter_cons, hp, hq, ih]
    · have hq := h a hp
      simp [List.filter_cons, hp, hq, ih]

/-- Recipe payload validation never looks at a client-supplied owner
field: stripping every "user" entry first changes nothing, because "user"
is not among the serializer's writable fields. -/
lemma validateRecipePayload_drop_user (raw : List (String × Val)) (p : Bool) :
    validateRecipePayload raw p
      = validateRecipePayload (raw.filter (fun q => q.1 ≠ "user")) p := by
  have hfil : raw.filter (fun pr => writableRecipeFields.contains pr.1)
      = (raw.filter (fun q => q.1 ≠ "user")).filter
          (fun pr => writableRecipeFields.contains pr.1) := by
    refine filter_of_filter_stronger _ _ raw ?_
    intro a ha
    by_cases h1 : a.1 = "user"
    · rw [h1] at ha
      exact absurd ha (by decide)
    · simp [h1]
  unfold validateRecipePayload
  rw [← hfil]

/-- A successful recipe validation returns exactly the writable-key
sublist of the raw payload. -/
lemma validateRecipePayload_eq_filter (raw : List (String × Val)) (p : Bool)
    (v : List (String × Val)) (h : validateRecipePayload raw p = some v) :
    v = raw.filter (fun pr => writableRecipeFields.contains pr.1) := by
  simp only [validateRecipePayload] at h
  split at h
  · split at h
    · injection h with h1
      exact h1.symm
    · split at h
      · injection h with h1
        exact h1.symm
      · simp at h
  · simp at h

/-- C6: a client-supplied owner field is silently ignored on recipe create
and update — stripping every "user" entry from the payload leaves both
operations' outcomes unchanged — and the owner after the operation is the
authenticated creator (create) respectively the prior owner (update). -/
theorem ownerFieldIgnored (u i : Nat) (db : DB)
    (raw raw2 : List (String × Val)) (p : Bool)
    (r : Recipe) (db' : DB) (r0 r2 : Recipe) (db2 : DB)
    (hc : recipeCreateOp u db raw = .ok (r, db'))
    (h0 : getOwnedRecipe db u i = some r0)
    (hu : recipeUpdateOp u db i raw2 p = .ok (r2, db2)) :
    recipeCreateOp u db raw
      = recipeCreateOp u db (raw.filter (fun q => q.1 ≠ "user"))
    ∧ recipeUpdateOp u db i raw2 p
      = recipeUpdateOp u db i (raw2.filter (fun q => q.1 ≠ "user")) p
    ∧ r.user = u
    ∧ r2.user = r0.user := by
  refine ⟨?_, ?_, ?_, ?_⟩
  · unfold recipeCreateOp
    rw [← validateRecipePayload_drop_user]
  · unfold recipeUpdateOp
    rw [← validateRecipePayload_drop_user]
  · cases hval : validateRecipePayload raw false with
    | none => simp [recipeCreateOp, hval] at hc
    | some v =>
      have hok : recipeCreateOp u db raw = .ok (recipeSerializerCreate u db v) := by
        simp [recipeCreateOp, hval]
      rw [hok] at hc
      have h1 : (recipeSerializerCreate u db v).1 = r :=
        congrArg Prod.fst (Except.ok.inj hc)
      rw [← h1]
      exact recipeSerializerCreate_user u db v
  · cases hval : validateRecipePayload raw2 p with
    | none => simp [recipeUpdateOp, h0, hval] at hu
    | some v =>
      simp only [recipeUpdateOp, h0, hval] at hu
      split at hu
      · simp at hu
      · simp only [Except.ok.injEq, Prod.mk.injEq] at hu
        obtain ⟨h1, _⟩ := hu
        rw [← h1, applyFields_user]

/-- Concrete instance of `ownerFieldIgnored`: a payload smuggling
`user := 9` neither fails nor changes the owner. -/
theorem ownerFieldIgnored_witness :
    (recipeCreateOp 1 ⟨[⟨1, 1, "Old", 2, 50, "L", "D", []⟩], [], 2, 1⟩
        [("title", .vStr "New"), ("time_minutes", .vNat 3),
         ("price", .vInt 10), ("user", .vNat 9)]
      = .ok (⟨2, 1, "New", 3, 10, "", "", []⟩,
          ⟨[⟨1, 1, "Old", 2, 50, "L", "D", []⟩,
            ⟨2, 1, "New", 3, 10, "", "", []⟩], [], 3, 1⟩)
    ∧ getOwnedRecipe ⟨[⟨1, 1, "Old", 2, 50, "L", "D", []⟩], [], 2, 1⟩ 1 1
      = some ⟨1, 1, "Old", 2, 50, "L", "D", []⟩
    ∧ recipeUpdateOp 1 ⟨[⟨1, 1, "Old", 2, 50, "L", "D", []⟩], [], 2, 1⟩ 1
        [("title", .vStr "Renamed"), ("user", .vNat 9)] true
      = .ok (⟨1, 1, "Renamed", 2, 50, "L", "D", []⟩,
          ⟨[⟨1, 1, "Renamed", 2, 50, "L", "D", []⟩], [], 2, 1⟩))
    ∧ (recipeCreateOp 1 ⟨[⟨1, 1, "Old", 2, 50, "L", "D", []⟩], [], 2, 1⟩
        [("title", .vStr "New"), ("time_minutes", .vNat 3),
         ("price", .vInt 10), ("user", .vNat 9)]
      = recipeCreateOp 1 ⟨[⟨1, 1, "Old", 2, 50, "L", "D", []⟩], [], 2, 1⟩
          ([("title", .vStr "New"), ("time_minutes", .vNat 3),
            ("price", .vInt 10), ("user", .vNat 9)].filter
            (fun q => q.1 ≠ "user"))
    ∧ recipeUpdateOp 1 ⟨[⟨1, 1, "Old", 2, 50, "L", "D", []⟩], [], 2, 1⟩ 1
        [("title", .vStr "Renamed"), ("user", .vNat 9)] true
      = recipeUpdateOp 1 ⟨[⟨1, 1, "Old", 2, 50, "L", "D", []⟩], [], 2, 1⟩ 1
          ([("title", .vStr "Renamed"), ("user", .vNat 9)].filter
            (fun q => q.1 ≠ "user")) true
    ∧ (⟨2, 1, "New", 3, 10, "", "", []⟩ : Recipe).user = 1
    ∧ (⟨1, 1, "Renamed", 2, 50, "L", "D", []⟩ : Recipe).user
        = (⟨1, 1, "Old", 2, 50, "L", "D", []⟩ : Recipe).user) :=
  ⟨⟨by rfl, by decide, by rfl⟩,
    ownerFieldIgnored 1 1 ⟨[⟨1, 1, "Old", 2, 50, "L", "D", []⟩], [], 2, 1⟩
      [("title", .vStr "New"), ("time_minutes", .vNat 3),
       ("price", .vInt 10), ("user", .vNat 9)]
      [("title", .vStr "Renamed"), ("user", .vNat 9)] true
      ⟨2, 1, "New", 3, 10, "", "", []⟩
      ⟨[⟨1, 1, "Old", 2, 50, "L", "D", []⟩,
        ⟨2, 1, "New", 3, 10, "", "", []⟩], [], 3, 1⟩
      ⟨1, 1, "Old", 2, 50, "L", "D", []⟩
      ⟨1, 1, "Renamed", 2, 50, "L", "D", []⟩
      ⟨[⟨1, 1, "Renamed", 2, 50, "L", "D", []⟩], [], 2, 1⟩
      (by rfl) (by decide) (by rfl)⟩

/-- Writing one serializer field leaves every other field untouched. -/
lemma fieldOf_setField_ne (r : Recipe) (g f : String) (v : Val) (h : g ≠ f) :
    fieldOf (setField r g v) f = fieldOf r f := by
  unfold setField
  split <;> (unfold fieldOf; split <;> simp_all)

/-- Applying a validated field list none of whose keys is `f` leaves the
field `f` untouched. -/
lemma fieldOf_applyFields (f : String) :
    ∀ (l : List (String × Val)) (r : Recipe), (∀ q ∈ l, q.1 ≠ f) →
      fieldOf (applyFields r l) f = fieldOf r f := by
  intro l
  induction l with
  | nil => intro r _; rfl
  | cons q rest ih =>
    intro r h
    show fieldOf (applyFields (setField r q.1 q.2) rest) f = fieldOf r f
    rw [ih _ (fun x hx => h x (List.mem_cons_of_mem q hx))]
    exact fieldOf_setField_ne r q.1 f q.2 (h q (List.mem_cons_self q rest))

/-- C7: in a successful partial update, any field whose name the payload
does not mention — owner, id, link, price, time_minutes, description, the
tag associations, anything — keeps its prior value. -/
theorem partialUpdateFrame (u i : Nat) (db : DB) (raw : List (String × Val))
    (f : String) (r0 r' : Recipe) (db' : DB)
    (h0 : getOwnedRecipe db u i = some r0)
    (hok : recipeUpdateOp u db i raw true = .ok (r', db'))
    (hf : ∀ q ∈ raw, q.1 ≠ f) :
    fieldOf r' f = fieldOf r0 f := by
  cases hval : validateRecipePayload raw true with
  | none => simp [recipeUpdateOp, h0, hval] at hok
  | some v =>
    simp only [recipeUpdateOp, h0, hval] at hok
    split at hok
    · simp at hok
    · have h1 : applyFields r0 v = r' := congrArg Prod.fst (Except.ok.inj hok)
      rw [← h1]
      refine fieldOf_applyFields f v r0 ?_
      intro q hq
      have hv := validateRecipePayload_eq_filter raw true v hval
      rw [hv] at hq
      exact hf q (List.mem_of_mem_filter hq)

/-- Concrete instance of `partialUpdateFrame`: updating only the title
leaves the link unchanged. -/
theorem partialUpdateFrame_witness :
    (getOwnedRecipe ⟨[⟨1, 4, "Old", 2, 50, "http://x", "D", [9]⟩], [], 2, 1⟩ 4 1
      = some ⟨1, 4, "Old", 2, 50, "http://x", "D", [9]⟩
    ∧ recipeUpdateOp 4 ⟨[⟨1, 4, "Old", 2, 50, "http://x", "D", [9]⟩], [], 2, 1⟩ 1
        [("title", .vStr "New recipe title")] true
      = .ok (⟨1, 4, "New recipe title", 2, 50, "http://x", "D", [9]⟩,
          ⟨[⟨1, 4, "New recipe title", 2, 50, "http://x", "D", [9]⟩], [], 2, 1⟩)
    ∧ (∀ q ∈ [(("title", .vStr "New recipe title") : String × Val)],
        q.1 ≠ "link"))
    ∧ fieldOf ⟨1, 4, "New recipe title", 2, 50, "http://x", "D", [9]⟩ "link"
      = fieldOf ⟨1, 4, "Old", 2, 50, "http://x", "D", [9]⟩ "link" :=
  ⟨⟨by decide, by rfl, by decide⟩,
    partialUpdateFrame 4 1 ⟨[⟨1, 4, "Old", 2, 50, "http://x", "D", [9]⟩], [], 2, 1⟩
      [("title", .vStr "New recipe title")] "link"
      ⟨1, 4, "Old", 2, 50, "http://x", "D", [9]⟩
      ⟨1, 4, "New recipe title", 2, 50, "http://x", "D", [9]⟩
      ⟨[⟨1, 4, "New recipe title", 2, 50, "http://x", "D", [9]⟩], [], 2, 1⟩
      (by decide) (by rfl) (by decide)⟩

end RecipeApp
